import Mathlib

/-!
Verification of the data-normalization, profit-calculation and aggregation
core of the EV betting tracker (src/app.py), shallowly embedded in Lean.
Numeric spreadsheet cells are modelled as exact rationals `ℚ`; a Python
exception raised while normalizing is modelled as `none`.
-/

namespace EvTracker

/-- Numeric value of a list of decimal digit characters (most significant
first), as Python's int/float literal reading does. -/
def digitsToNat (cs : List Char) : ℕ :=
  cs.foldl (fun a c => 10 * a + (c.toNat - 48)) 0

/-- Models Python `float()` on an unsigned literal: a run of digits with an
optional single decimal point ("12", "12.5", ".5", "12."); anything else
(empty string, stray characters such as letters or a percent sign) fails. -/
def parseUnsigned (cs : List Char) : Option ℚ :=
  match cs.dropWhile Char.isDigit with
  | [] =>
      if cs.takeWhile Char.isDigit = [] then none
      else some (digitsToNat (cs.takeWhile Char.isDigit) : ℚ)
  | '.' :: fp =>
      if fp.all Char.isDigit ∧ (cs.takeWhile Char.isDigit ≠ [] ∨ fp ≠ []) then
        some (mkRat
          (Int.ofNat (digitsToNat (cs.takeWhile Char.isDigit) * Nat.pow 10 fp.length +
            digitsToNat fp))
          (Nat.pow 10 fp.length))
      else none
  | _ => none

/-- Models Python `float()` including an optional leading sign. -/
def parseFloatChars : List Char → Option ℚ
  | '-' :: t => (parseUnsigned t).map (fun q => -q)
  | '+' :: t => parseUnsigned t
  | cs => parseUnsigned cs

/-- Models `float(s)` / pandas `astype(float)` on one text cell
(src/app.py lines 50-56): `none` is the `ValueError` Python raises. -/
def pyFloat (s : String) : Option ℚ := parseFloatChars s.toList

/-- `replace('[\$,]', '', regex=True)` (src/app.py lines 50-51): drop every
literal dollar sign and comma from the cell. -/
def stripCurrencyChars (s : String) : String :=
  String.mk (s.toList.filter (fun c => !(c == '$' || c == ',')))

/-- `replace('', '0')` (src/app.py lines 50-56): a cell that is exactly the
empty string becomes "0". -/
def emptyToZero (s : String) : String := if s = "" then "0" else s

/-- Cleaning of the "Stake ($)" and "Profit/Loss" columns (src/app.py lines
50-51): strip `$`/`,`, map the empty string to "0", then `astype(float)`;
`none` models the exception raised on a non-numeric remainder. -/
def cleanCurrency (s : String) : Option ℚ :=
  pyFloat (emptyToZero (stripCurrencyChars s))

/-- `replace('%', '', regex=True)` (src/app.py line 56): drop every percent
sign from the cell. -/
def stripPercentChars (s : String) : String :=
  String.mk (s.toList.filter (fun c => !(c == '%')))

/-- The per-cell fallback of the EV `except` branch (src/app.py line 56):
strip `%`, map the empty string to "0", parse as float. Note: the code does
NOT divide the stripped number by 100. -/
def evFallbackCell (s : String) : Option ℚ :=
  pyFloat (emptyToZero (stripPercentChars s))

/-- Column-wide application of a per-cell parse, as pandas `astype(float)`
does: the whole column fails as soon as one cell fails. -/
def mapOpt (f : α → Option β) : List α → Option (List β)
  | [] => some []
  | a :: as =>
      match f a, mapOpt f as with
      | some b, some bs => some (b :: bs)
      | _, _ => none

/-- EV normalization (src/app.py lines 53-56): `try: df['EV'].astype(float)`
over the whole column; on failure, the `except` branch strips `%`, maps empty
cells to "0" and parses again — still over the whole column, and still
failing (raising) if a cell is non-numeric even after stripping. -/
def evNormalize (col : List String) : Option (List ℚ) :=
  match mapOpt pyFloat col with
  | some vs => some vs
  | none => mapOpt evFallbackCell col

/-- A normalized row of the sheet (src/app.py lines 42-59): the eight
expected columns after currency/EV cleaning and Result/Sport defaulting. -/
structure BetRecord where
  datePlaced : String
  stake : ℚ
  ev : ℚ
  odds : String
  profitLoss : ℚ
  result : String
  gameName : String
  sport : String
deriving DecidableEq

/-- `calc_real` (src/app.py lines 62-69). -/
def calc_real (r : BetRecord) : ℚ :=
  if r.result = "Win" then r.profitLoss - r.stake
  else if r.result = "Loss" then -r.stake
  else if r.result = "Cashed Out" then r.profitLoss - r.stake
  else 0

/-- `calc_expected` (src/app.py lines 70-71). -/
def calc_expected (r : BetRecord) : ℚ := r.stake * r.ev

/-- Gregorian leap-year rule, as the datetime library the date coercion
relies on implements it. -/
def isLeapYear (y : ℕ) : Bool :=
  (y % 4 == 0 && y % 100 != 0) || y % 400 == 0

/-- Days in a calendar month. -/
def daysInMonth (m y : ℕ) : ℕ :=
  if m = 2 then (if isLeapYear y then 29 else 28)
  else if m = 4 ∨ m = 6 ∨ m = 9 ∨ m = 11 then 30
  else 31

/-- Split a character list on every dash, keeping empty groups, as
splitting a string on "-" does. -/
def splitOnDash : List Char → List (List Char)
  | [] => [[]]
  | c :: cs =>
      match splitOnDash cs, c == '-' with
      | groups, true => [] :: groups
      | [], false => [[c]]
      | g :: gs, false => (c :: g) :: gs

/-- Models `pd.to_datetime(s, dayfirst=True, errors='coerce')` (src/app.py
line 105) on the `DD-MM-YYYY` text the app itself writes to the store
(src/app.py line 88): day first, then month, then year, dash-separated,
validated against the calendar; `none` models the `NaT` an unparsable date
coerces to. The date is returned encoded as y*10000 + m*100 + d, an encoding
that orders exactly as dates do. -/
def parseDayFirstDate (s : String) : Option ℕ :=
  match splitOnDash s.toList with
  | [ds, ms, ys] =>
      if ds ≠ [] ∧ ms ≠ [] ∧ ys ≠ [] ∧
          ds.all Char.isDigit ∧ ms.all Char.isDigit ∧ ys.all Char.isDigit then
        let d := digitsToNat ds
        let m := digitsToNat ms
        let y := digitsToNat ys
        if 1 ≤ m ∧ m ≤ 12 ∧ 1 ≤ d ∧ d ≤ daysInMonth m y then
          some (y * 10000 + m * 100 + d)
        else none
      else none
  | _ => none

/-- The filtered frame `df_filtered` (src/app.py lines 103-106): keep rows
whose Result and Sport are in the selected sets, then coerce dates and drop
rows whose date failed to parse. (The source skips the date step when the
first filter leaves nothing, which coincides with applying it to the empty
list.) -/
def filterRecords (recs : List BetRecord) (allowedResults allowedSports : List String) :
    List BetRecord :=
  (recs.filter (fun r =>
      decide (r.result ∈ allowedResults) && decide (r.sport ∈ allowedSports))).filter
    (fun r => (parseDayFirstDate r.datePlaced).isSome)

/-- `profit = df_filtered['Real Profit'].sum()` (src/app.py line 110). -/
def totalProfit (recs : List BetRecord) : ℚ := (recs.map calc_real).sum

/-- `turnover = df_filtered['Stake ($)'].sum()` (src/app.py line 111). -/
def totalTurnover (recs : List BetRecord) : ℚ :=
  (recs.map (fun r => r.stake)).sum

/-- `yield_pct = profit / turnover * 100 if turnover else 0` (src/app.py
line 112); Python float truthiness is "nonzero". -/
def yieldPct (recs : List BetRecord) : ℚ :=
  if totalTurnover recs ≠ 0 then totalProfit recs / totalTurnover recs * 100 else 0

/-- `roi_pct = profit / initial_capital * 100 if initial_capital else 0`
(src/app.py line 113). -/
def roiPct (recs : List BetRecord) (initialCapital : ℚ) : ℚ :=
  if initialCapital ≠ 0 then totalProfit recs / initialCapital * 100 else 0

/-- The empty-store guard (src/app.py lines 29-32): `ws.get_all_values()`
with fewer than two rows (no data row after the header) raises the
user-visible "No data found" stop, modelled as `none`; otherwise the header
and the data rows are returned unchanged. -/
def loadRows (allValues : List (List String)) :
    Option (List String × List (List String)) :=
  if allValues.length < 2 then none
  else
    match allValues with
    | [] => none
    | header :: dataRows => some (header, dataRows)

/-- Insert a date key into an ascending list of distinct keys, as the sorted
unique index of a pandas `groupby` accumulates group keys. -/
def insertKey (d : ℕ) : List ℕ → List ℕ
  | [] => [d]
  | x :: xs =>
      if d < x then d :: x :: xs
      else if d = x then x :: xs
      else x :: insertKey d xs

/-- The ascending list of distinct `Date Placed` keys of the rows: the group
index produced by `groupby('Date Placed')` (src/app.py line 124), which
sorts its keys ascending. A row is (dateKey, Real Profit, Expected Profit). -/
def sortedKeys (rows : List (ℕ × ℚ × ℚ)) : List ℕ :=
  rows.foldr (fun r ks => insertKey r.1 ks) []

/-- Per-date group sum of the Real Profit column. -/
def sumRealOn (rows : List (ℕ × ℚ × ℚ)) (d : ℕ) : ℚ :=
  ((rows.filter (fun r => r.1 == d)).map (fun r => r.2.1)).sum

/-- Per-date group sum of the Expected Profit column. -/
def sumExpOn (rows : List (ℕ × ℚ × ℚ)) (d : ℕ) : ℚ :=
  ((rows.filter (fun r => r.1 == d)).map (fun r => r.2.2)).sum

/-- The per-date sums of Real Profit in date order: the Real Profit column of
`groupby('Date Placed')[...].sum()`. -/
def periodReal (rows : List (ℕ × ℚ × ℚ)) : List ℚ :=
  (sortedKeys rows).map (sumRealOn rows)

/-- The per-date sums of Expected Profit in date order. -/
def periodExp (rows : List (ℕ × ℚ × ℚ)) : List ℚ :=
  (sortedKeys rows).map (sumExpOn rows)

/-- Running sums continuing from accumulator `a`, as pandas `cumsum` walks a
column. -/
def cumsumFrom (a : ℚ) : List ℚ → List ℚ
  | [] => []
  | x :: xs => (a + x) :: cumsumFrom (a + x) xs

/-- pandas `cumsum` of a column. -/
def cumsum (xs : List ℚ) : List ℚ := cumsumFrom 0 xs

/-- Cumulative Real Profit series across dates in ascending order. -/
def cumReal (rows : List (ℕ × ℚ × ℚ)) : List ℚ := cumsum (periodReal rows)

/-- Cumulative Expected Profit series across dates in ascending order. -/
def cumExp (rows : List (ℕ × ℚ × ℚ)) : List ℚ := cumsum (periodExp rows)

/-- `chart_df = df_filtered.groupby('Date Placed')[['Real Profit','Expected
Profit']].sum().cumsum().reset_index()` (src/app.py line 124): one output row
per distinct date, ascending, carrying the running cumulative sums. -/
def chartSeries (rows : List (ℕ × ℚ × ℚ)) : List (ℕ × ℚ × ℚ) :=
  (sortedKeys rows).zip ((cumReal rows).zip (cumExp rows))

/-- The chart row a filtered record contributes: its parsed date key and its
two profit figures. (Every record of the filtered set has a parsable date,
so the `getD 0` default is never reached there.) -/
def rowOfRecord (r : BetRecord) : ℕ × ℚ × ℚ :=
  ((parseDayFirstDate r.datePlaced).getD 0, calc_real r, calc_expected r)

/-- The chart pipeline applied to the filtered records. -/
def chart_df (recs : List BetRecord) (allowedResults allowedSports : List String) :
    List (ℕ × ℚ × ℚ) :=
  chartSeries ((filterRecords recs allowedResults allowedSports).map rowOfRecord)

/-- C2: `calc_real` is an exact case analysis on the Result column: Win and
Cashed Out give gross return minus stake, Loss gives minus the stake, and any
other value — Pending included — gives 0 whatever the other fields hold; the
function is total. -/
theorem c2_calc_real_cases (r : BetRecord) :
    (r.result = "Win" → calc_real r = r.profitLoss - r.stake) ∧
    (r.result = "Loss" → calc_real r = -r.stake) ∧
    (r.result = "Cashed Out" → calc_real r = r.profitLoss - r.stake) ∧
    (r.result ≠ "Win" → r.result ≠ "Loss" → r.result ≠ "Cashed Out" →
      calc_real r = 0) := by
  refine ⟨fun h => ?_, fun h => ?_, fun h => ?_, fun h1 h2 h3 => ?_⟩
  · simp [calc_real, h]
  · simp [calc_real, h]
  · simp [calc_real, h]
  · simp only [calc_real]
    rw [if_neg h1, if_neg h2, if_neg h3]

/-- C3: `calc_expected` is stake times ev for every record, unconditionally
and independently of the result; in particular it is nonzero whenever both
stake and ev are nonzero (so also for a Pending bet). -/
theorem c3_expected_profit (r : BetRecord) :
    calc_expected r = r.stake * r.ev ∧
    (r.stake ≠ 0 → r.ev ≠ 0 → calc_expected r ≠ 0) :=
  ⟨rfl, fun h1 h2 => mul_ne_zero h1 h2⟩

/-- C8: the summary metrics never divide by zero: the yield is
profit/turnover*100 exactly when the filtered turnover is nonzero and 0 when
it is zero, and the ROI is profit/capital*100 exactly when the configured
initial capital is nonzero and 0 when it is zero. -/
theorem c8_no_division_by_zero (recs : List BetRecord)
    (allowedResults allowedSports : List String) (initialCapital : ℚ) :
    (totalTurnover (filterRecords recs allowedResults allowedSports) ≠ 0 →
      yieldPct (filterRecords recs allowedResults allowedSports) =
        totalProfit (filterRecords recs allowedResults allowedSports) /
          totalTurnover (filterRecords recs allowedResults allowedSports) * 100) ∧
    (totalTurnover (filterRecords recs allowedResults allowedSports) = 0 →
      yieldPct (filterRecords recs allowedResults allowedSports) = 0) ∧
    (initialCapital ≠ 0 →
      roiPct (filterRecords recs allowedResults allowedSports) initialCapital =
        totalProfit (filterRecords recs allowedResults allowedSports) /
          initialCapital * 100) ∧
    (initialCapital = 0 →
      roiPct (filterRecords recs allowedResults allowedSports) initialCapital = 0) := by
  refine ⟨fun h => ?_, fun h => ?_, fun h => ?_, fun h => ?_⟩
  · rw [yieldPct, if_pos h]
  · rw [yieldPct, if_neg (by simpa using h)]
  · rw [roiPct, if_pos h]
  · rw [roiPct, if_neg (by simpa using h)]

/-- C9: loading fails (EmptyStoreError) exactly when the store holds fewer
than two rows — in particular for a header-only store — and with two or more
rows it succeeds, returning precisely the store's header and data rows with
nothing substituted. -/
theorem c9_empty_store_guard (allValues : List (List String)) :
    ((loadRows allValues).isNone ↔ allValues.length < 2) ∧
    (∀ header dataRows, loadRows allValues = some (header, dataRows) →
      allValues = header :: dataRows ∧ 2 ≤ allValues.length) := by
  constructor
  · unfold loadRows
    by_cases h : allValues.length < 2
    · simp [h]
    · rw [if_neg h]
      match allValues with
      | [] => simp at h
      | header :: dataRows => simpa using h
  · intro header dataRows h
    unfold loadRows at h
    by_cases hl : allValues.length < 2
    · rw [if_pos hl] at h
      exact absurd h (by simp)
    · rw [if_neg hl] at h
      match allValues, h with
      | header' :: dataRows', h =>
        simp only [Option.some.injEq, Prod.mk.injEq] at h
        exact ⟨by rw [h.1, h.2], by omega⟩

/-- A characters list that `parseUnsigned` accepts holds no percent sign. -/
theorem parseUnsigned_no_pct {cs : List Char} {q : ℚ} (h : parseUnsigned cs = some q) :
    '%' ∉ cs := by
  intro hmem
  have hsplit : cs.takeWhile Char.isDigit ++ cs.dropWhile Char.isDigit = cs :=
    List.takeWhile_append_dropWhile ..
  unfold parseUnsigned at h
  split at h
  next heq =>
    rw [← hsplit, heq, List.append_nil] at hmem
    exact absurd (List.mem_takeWhile_imp hmem) (by decide)
  next fp heq =>
    rw [← hsplit, heq] at hmem
    rcases List.mem_append.mp hmem with h1 | h2
    · exact absurd (List.mem_takeWhile_imp h1) (by decide)
    · rcases List.mem_cons.mp h2 with h3 | h4
      · exact absurd h3 (by decide)
      · split at h
        next hcond =>
          exact absurd (List.all_eq_true.mp hcond.1 _ h4) (by decide)
        next => exact Option.noConfusion h
  next => exact Option.noConfusion h

/-- A characters list that `parseFloatChars` accepts holds no percent sign
and is nonempty. -/
theorem parseFloatChars_no_pct {cs : List Char} {q : ℚ} (h : parseFloatChars cs = some q) :
    '%' ∉ cs ∧ cs ≠ [] := by
  unfold parseFloatChars at h
  split at h
  next t =>
    rcases Option.map_eq_some'.mp h with ⟨a, ha, _⟩
    refine ⟨fun hmem => ?_, by simp⟩
    rcases List.mem_cons.mp hmem with h3 | h4
    · exact absurd h3 (by decide)
    · exact parseUnsigned_no_pct ha h4
  next t =>
    refine ⟨fun hmem => ?_, by simp⟩
    rcases List.mem_cons.mp hmem with h3 | h4
    · exact absurd h3 (by decide)
    · exact parseUnsigned_no_pct h h4
  next =>
    refine ⟨fun hmem => parseUnsigned_no_pct h hmem, fun hnil => ?_⟩
    rw [hnil] at h
    exact Option.noConfusion h

/-- A cell the direct column-wide float parse accepts is left unchanged by
the percent-strip fallback, which therefore parses it to the same value. -/
theorem evFallbackCell_agrees {s : String} {q : ℚ} (h : pyFloat s = some q) :
    evFallbackCell s = some q := by
  obtain ⟨hpct, hne⟩ := parseFloatChars_no_pct h
  have h1 : stripPercentChars s = s := by
    unfold stripPercentChars
    have hf : s.toList.filter (fun c => !(c == '%')) = s.toList :=
      List.filter_eq_self.mpr (fun c hc => by
        simp only [Bool.not_eq_true', beq_eq_false_iff_ne, ne_eq]
        exact fun hcp => hpct (hcp ▸ hc))
    rw [hf]
    rfl
  have h2 : emptyToZero s = s := by
    unfold emptyToZero
    rw [if_neg (fun hs => hne (by rw [hs]; rfl))]
  unfold evFallbackCell
  rw [h1, h2]
  exact h

/-- A whole column the direct parse accepts is accepted cell-for-cell by the
fallback parse with the same values. -/
theorem mapOpt_congr {f g : α → Option β} (hfg : ∀ a b, f a = some b → g a = some b) :
    ∀ {l : List α} {bs : List β}, mapOpt f l = some bs → mapOpt g l = some bs := by
  intro l
  induction l with
  | nil => intro bs h; exact h
  | cons a as ih =>
    intro bs h
    unfold mapOpt at h ⊢
    cases hfa : f a with
    | none => rw [hfa] at h; exact Option.noConfusion h
    | some b =>
      rw [hfa] at h
      cases hrest : mapOpt f as with
      | none => rw [hrest] at h; exact Option.noConfusion h
      | some bs' =>
        rw [hrest] at h
        rw [hfg a b hfa, ih hrest]
        exact h

/-- Whichever stage of the EV normalization succeeded, its cell values agree
with running the fallback parse on every cell. -/
theorem evNormalize_fallback {col : List String} {vs : List ℚ}
    (h : evNormalize col = some vs) : mapOpt evFallbackCell col = some vs := by
  unfold evNormalize at h
  cases hdir : mapOpt pyFloat col with
  | some ws =>
    rw [hdir] at h
    rw [mapOpt_congr (fun s q hq => evFallbackCell_agrees hq) hdir]
    exact h
  | none => rw [hdir] at h; exact h

/-- A successful column-wide parse determines each output cell from the
input cell at the same position. -/
theorem mapOpt_getD {f : α → Option β} (dA : α) (dB : β) :
    ∀ {l : List α} {bs : List β}, mapOpt f l = some bs →
      ∀ k, k < l.length → f (l.getD k dA) = some (bs.getD k dB) := by
  intro l
  induction l with
  | nil => intro bs h k hk; exact absurd hk (by simp)
  | cons a as ih =>
    intro bs h k hk
    unfold mapOpt at h
    cases hfa : f a with
    | none => rw [hfa] at h; exact Option.noConfusion h
    | some b =>
      rw [hfa] at h
      cases hrest : mapOpt f as with
      | none => rw [hrest] at h; exact Option.noConfusion h
      | some bs' =>
        rw [hrest] at h
        have hbs : b :: bs' = bs := Option.some.inj h
        subst hbs
        cases k with
        | zero => simpa using hfa
        | succ k' =>
          have hk' : k' < as.length := by simpa using hk
          simpa using ih hrest k' hk'

/-- C1 counterexample: the EV fallback does not divide a percent string by
100 — "25%" normalizes to 25, not 0.25 — and a value that fails both stages
is not defaulted to 0.0 (normalization fails instead). -/
theorem c1_counterexample :
    evNormalize ["25%"] = some [25] ∧ (25 : ℚ) ≠ mkRat 1 4 ∧
      evNormalize ["abc"] = none :=
  ⟨by decide, by decide, by decide⟩

/-- C1 amended: EV normalization is a two-stage parse attempted over the
whole column: the direct float parse is tried first and its result used
as-is; on failure every `%` character is stripped and empty cells become 0.0,
but the stripped number is NOT divided by 100; a cell unparsable even after
stripping makes normalization fail rather than default to 0.0. In particular
parseEv["0.25"] = [0.25], parseEv["25%"] = [25.0], parseEv[""] = [0.0], and
parseEv["abc"] fails. -/
theorem c1_ev_two_stage_parse :
    (∀ (col : List String) (vs : List ℚ),
      mapOpt pyFloat col = some vs → evNormalize col = some vs) ∧
    evNormalize ["0.25"] = some [mkRat 1 4] ∧
    evNormalize ["25%"] = some [25] ∧
    evNormalize [""] = some [0] ∧
    evNormalize ["abc"] = none := by
  refine ⟨fun col vs h => ?_, by decide, by decide, by decide, by decide⟩
  unfold evNormalize
  rw [h]

/-- C4 counterexample: normalization is not crash-free — a currency cell
whose cleaned text is not a number raises (astype(float) ValueError), as
does an EV cell that fails both parse stages. -/
theorem c4_counterexample :
    cleanCurrency "abc" = none ∧ evNormalize ["x5"] = none :=
  ⟨by decide, by decide⟩

/-- C4 amended: normalization degrades empty cells, `$`/`,` in currency,
`%` in EV and unparsable dates to safe defaults (0, 0.0, or a date-parse
failure that leads to a silent row drop), but it is not crash-free: a
currency or EV cell that is non-numeric after cleaning makes normalization
raise rather than produce a default. -/
theorem c4_lenient_defaults_not_crash_free :
    cleanCurrency "" = some 0 ∧
    cleanCurrency "$2,000" = some 2000 ∧
    evNormalize ["20%"] = some [20] ∧
    evNormalize ["%"] = some [0] ∧
    parseDayFirstDate "not-a-date" = none ∧
    cleanCurrency "5x" = none :=
  ⟨by decide, by decide, by decide, by decide, by decide, by decide⟩

/-- C5 counterexample: currency cleaning accepts a negative amount, so the
claimed invariant `parsed value ≥ 0` (and hence `stake ≥ 0`) does not hold. -/
theorem c5_counterexample :
    cleanCurrency "-5" = some (-5) ∧ ¬((0 : ℚ) ≤ (-5 : ℚ)) :=
  ⟨by decide, by decide⟩

/-- Dropping `$` and `,` characters distributes over string append. -/
theorem stripCurrencyChars_append (a b : String) :
    stripCurrencyChars (a ++ b) = stripCurrencyChars a ++ stripCurrencyChars b := by
  unfold stripCurrencyChars
  show String.mk (((a ++ b).data).filter _) = _
  rw [String.data_append, List.filter_append]
  rfl

/-- C5 amended: currency cleaning strips every `$` and `,` and parses the
remainder as a float, and the empty string cleans to exactly 0.0; but the
parsed value may be negative (no `≥ 0` invariant holds), and a non-numeric
remainder fails rather than parse. -/
theorem c5_currency_cleaning :
    (∀ s : String, cleanCurrency ("$" ++ s) = cleanCurrency s) ∧
    (∀ s t : String, cleanCurrency (s ++ "," ++ t) = cleanCurrency (s ++ t)) ∧
    cleanCurrency "" = some 0 ∧
    cleanCurrency "$1,234.5" = some (mkRat 2469 2) ∧
    cleanCurrency "-5" = some (-5) := by
  refine ⟨fun s => ?_, fun s t => ?_, by decide, by decide, by decide⟩
  · unfold cleanCurrency
    rw [stripCurrencyChars_append]
    rw [show stripCurrencyChars "$" = "" from by decide]
    rfl
  · unfold cleanCurrency
    rw [stripCurrencyChars_append, stripCurrencyChars_append, stripCurrencyChars_append]
    rw [show stripCurrencyChars "," = "" from by decide, String.append_empty]

/-- C7: a record survives into the filtered set used by the metrics, chart
and table exactly when its result is among the allowed results, its sport is
among the allowed sports, and its date parses day-first; a record whose date
fails to parse is dropped silently (it is simply absent, no error value
exists). -/
theorem c7_filter_membership (recs : List BetRecord)
    (allowedResults allowedSports : List String) (r : BetRecord) :
    r ∈ filterRecords recs allowedResults allowedSports ↔
      r ∈ recs ∧ r.result ∈ allowedResults ∧ r.sport ∈ allowedSports ∧
        (parseDayFirstDate r.datePlaced).isSome := by
  unfold filterRecords
  simp only [List.mem_filter, Bool.and_eq_true, decide_eq_true_eq]
  tauto

/-- C10 counterexample (negation of the claim): although the direct parse is
attempted over the whole column, no pair of loads differing only in one
row's raw EV text can disagree on the normalized EV of a different row: on
any cell the direct parse accepts, the fallback produces the same value, so
the path switch is value-invisible on the unchanged rows. -/
theorem c10_counterexample :
    ¬ ∃ (xs ys : List String) (j i : ℕ) (vs ws : List ℚ),
        xs.length = ys.length ∧
        (∀ k, k ≠ j → xs.getD k "" = ys.getD k "") ∧
        i ≠ j ∧ i < xs.length ∧
        evNormalize xs = some vs ∧ evNormalize ys = some ws ∧
        vs.getD i 0 ≠ ws.getD i 0 := by
  rintro ⟨xs, ys, j, i, vs, ws, hlen, hagree, hij, hi, hxs, hys, hne⟩
  have h1 := mapOpt_getD "" (0 : ℚ) (evNormalize_fallback hxs) i hi
  have h2 := mapOpt_getD "" (0 : ℚ) (evNormalize_fallback hys) i (hlen ▸ hi)
  rw [← hagree i hij, h1] at h2
  exact hne (Option.some.inj h2)

/-- C10 amended: the direct float parse is indeed attempted over the entire
EV column at once (one unparsable cell switches every row to the
percent-strip fallback), but that switch never changes the normalized EV of
another row: for any two loads that differ only in the raw EV text of one
row, every other row that normalizes in both loads normalizes to the same
value; the column-wide behavior is observable only through whole-load
failure, never through a different value. -/
theorem c10_column_parse_value_agreement (xs ys : List String) (j i : ℕ)
    (vs ws : List ℚ) (hlen : xs.length = ys.length)
    (hagree : ∀ k, k ≠ j → xs.getD k "" = ys.getD k "")
    (hij : i ≠ j) (hi : i < xs.length)
    (hxs : evNormalize xs = some vs) (hys : evNormalize ys = some ws) :
    vs.getD i 0 = ws.getD i 0 := by
  have h1 := mapOpt_getD "" (0 : ℚ) (evNormalize_fallback hxs) i hi
  have h2 := mapOpt_getD "" (0 : ℚ) (evNormalize_fallback hys) i (hlen ▸ hi)
  rw [← hagree i hij, h1] at h2
  exact Option.some.inj h2

/-- C10 witness: the loads ["0.5","0.25"] and ["50%","0.25"] differ only in
row 0; the first takes the direct path, the second the fallback path, and
row 1 normalizes to 0.25 in both. -/
theorem c10_witness :
    ([mkRat 1 2, mkRat 1 4].getD 1 0 : ℚ) = ([50, mkRat 1 4].getD 1 0 : ℚ) :=
  c10_column_parse_value_agreement ["0.5", "0.25"] ["50%", "0.25"] 0 1
    [mkRat 1 2, mkRat 1 4] [50, mkRat 1 4] (by decide)
    (fun k hk => by
      match k with
      | 0 => exact absurd rfl hk
      | 1 => rfl
      | k + 2 => simp)
    (by decide) (by decide) (by decide) (by decide)

/-- Membership in a sorted insert: the new key or an old one. -/
theorem mem_insertKey (d z : ℕ) (l : List ℕ) : z ∈ insertKey d l ↔ z = d ∨ z ∈ l := by
  induction l with
  | nil => simp [insertKey]
  | cons x xs ih =>
    unfold insertKey
    by_cases h1 : d < x
    · rw [if_pos h1, List.mem_cons, List.mem_cons]
    · rw [if_neg h1]
      by_cases h2 : d = x
      · rw [if_pos h2]
        subst h2
        rw [List.mem_cons]
        tauto
      · rw [if_neg h2, List.mem_cons, ih, List.mem_cons]
        tauto

/-- Sorted insertion preserves strict ascending order. -/
theorem pairwise_insertKey (d : ℕ) (l : List ℕ) (h : l.Pairwise (· < ·)) :
    (insertKey d l).Pairwise (· < ·) := by
  induction l with
  | nil => simp [insertKey]
  | cons x xs ih =>
    rw [List.pairwise_cons] at h
    obtain ⟨hx, hxs⟩ := h
    unfold insertKey
    by_cases h1 : d < x
    · rw [if_pos h1]
      refine List.Pairwise.cons ?_ (List.Pairwise.cons hx hxs)
      intro z hz
      rcases List.mem_cons.mp hz with rfl | hz2
      · exact h1
      · exact h1.trans (hx z hz2)
    · rw [if_neg h1]
      by_cases h2 : d = x
      · rw [if_pos h2]
        exact List.Pairwise.cons hx hxs
      · rw [if_neg h2]
        refine List.Pairwise.cons ?_ (ih hxs)
        intro z hz
        rcases (mem_insertKey d z xs).mp hz with rfl | hz2
        · omega
        · exact hx z hz2

/-- The group index is strictly ascending: dates are distinct and ordered. -/
theorem sortedKeys_pairwise (rows : List (ℕ × ℚ × ℚ)) :
    (sortedKeys rows).Pairwise (· < ·) := by
  unfold sortedKeys
  induction rows with
  | nil => exact List.Pairwise.nil
  | cons r rs ih =>
    rw [List.foldr_cons]
    exact pairwise_insertKey _ _ ih

/-- The group index holds exactly the dates occurring among the rows. -/
theorem sortedKeys_mem (rows : List (ℕ × ℚ × ℚ)) (d : ℕ) :
    d ∈ sortedKeys rows ↔ d ∈ rows.map Prod.fst := by
  unfold sortedKeys
  induction rows with
  | nil => simp
  | cons r rs ih =>
    rw [List.foldr_cons, mem_insertKey, ih, List.map_cons, List.mem_cons]

/-- The i-th running sum continues the accumulator by the sum of the first
i+1 entries. -/
theorem cumsumFrom_getD (xs : List ℚ) :
    ∀ (a : ℚ) (i : ℕ), i < xs.length →
      (cumsumFrom a xs).getD i 0 = a + (xs.take (i + 1)).sum := by
  induction xs with
  | nil =>
    intro a i hi
    exact absurd hi (by simp)
  | cons x xs ih =>
    intro a i hi
    unfold cumsumFrom
    cases i with
    | zero => simp
    | succ i' =>
      rw [List.getD_cons_succ]
      rw [ih (a + x) i' (by simpa using hi)]
      rw [List.take_succ_cons, List.sum_cons, ← add_assoc]

/-- Prefix sums grow by exactly the next entry. -/
theorem sum_take_succ_getD (xs : List ℚ) :
    ∀ i, i < xs.length → (xs.take (i + 1)).sum = (xs.take i).sum + xs.getD i 0 := by
  induction xs with
  | nil =>
    intro i hi
    exact absurd hi (by simp)
  | cons x xs ih =>
    intro i hi
    cases i with
    | zero => simp
    | succ i' =>
      rw [List.take_succ_cons, List.take_succ_cons, List.sum_cons, List.sum_cons,
        List.getD_cons_succ, ih i' (by simpa using hi)]
      ring

/-- The first cumulative value is the first per-period sum. -/
theorem cumsum_getD_zero (xs : List ℚ) : (cumsum xs).getD 0 0 = xs.getD 0 0 := by
  cases xs with
  | nil => rfl
  | cons x xs => simp [cumsum, cumsumFrom]

/-- Each later cumulative value is the previous one plus the current
per-period sum. -/
theorem cumsum_getD_succ (xs : List ℚ) (i : ℕ) (hi : i + 1 < xs.length) :
    (cumsum xs).getD (i + 1) 0 = (cumsum xs).getD i 0 + xs.getD (i + 1) 0 := by
  unfold cumsum
  rw [cumsumFrom_getD xs 0 (i + 1) hi, cumsumFrom_getD xs 0 i (by omega),
    sum_take_succ_getD xs (i + 1) hi]
  ring

/-- C6: the chart series groups rows by date key (its index holds exactly
the dates present, each once, in strictly ascending order), one output row
per date carrying running cumulative sums of the per-date Real Profit and
Expected Profit sums, and those cumulative series satisfy
cumulative[0] = periodSum[0] and cumulative[i+1] = cumulative[i] +
periodSum[i+1] for both columns. -/
theorem c6_chart_groupby_cumsum (rows : List (ℕ × ℚ × ℚ)) :
    (sortedKeys rows).Pairwise (· < ·) ∧
    (∀ d, d ∈ sortedKeys rows ↔ d ∈ rows.map Prod.fst) ∧
    chartSeries rows = (sortedKeys rows).zip ((cumReal rows).zip (cumExp rows)) ∧
    ((cumReal rows).getD 0 0 = (periodReal rows).getD 0 0 ∧
      (cumExp rows).getD 0 0 = (periodExp rows).getD 0 0) ∧
    (∀ i, i + 1 < (sortedKeys rows).length →
      (cumReal rows).getD (i + 1) 0 =
        (cumReal rows).getD i 0 + (periodReal rows).getD (i + 1) 0 ∧
      (cumExp rows).getD (i + 1) 0 =
        (cumExp rows).getD i 0 + (periodExp rows).getD (i + 1) 0) := by
  refine ⟨sortedKeys_pairwise rows, fun d => sortedKeys_mem rows d, rfl,
    ⟨cumsum_getD_zero _, cumsum_getD_zero _⟩, fun i hi => ?_⟩
  have hr : i + 1 < (periodReal rows).length := by
    simpa [periodReal] using hi
  have he : i + 1 < (periodExp rows).length := by
    simpa [periodExp] using hi
  exact ⟨cumsum_getD_succ _ i hr, cumsum_getD_succ _ i he⟩

end EvTracker
